import Mathlib

/-!
Verification of the beacon-scoring engine of activecm/rita
(src/integration/get_beacon_info.py).

Modelling conventions:
* Python floats are modelled as exact rationals (arithmetic in the source is
  on small values where IEEE rounding is not what the spec is about);
  np.sqrt is modelled by Real.sqrt, which makes the coefficient-of-variation
  score live in the reals.
* np.round on floats rounds half to even; it is modelled by hround below.
  math.ceil / np.ceil and math.floor / np.floor are Int.ceil / Int.floor.
* Python int(x) truncates toward zero; it is modelled by pyInt below.
* Functions that call exit(1) on bad input are modelled twice: a total
  function for the body (used when the guard has been passed) and an
  Option-returning wrapper whose none is the fatal exit.
* np.median sorts its input internally: npMedian sorts and then takes the
  middle (average of the two middles for even length).  med alone reads the
  middle of an already sorted list; med [] is given the junk value 0, which
  is only ever reached where Python would produce NaN (the n = 1 quartile
  slices); there the NaN poisons the guard den >= 10 to False exactly as the
  junk value does, so the observable outputs agree.
* Python dicts preserve insertion order; the frequency-count dict is an
  association list updated in insertion order (bumpKey).
-/

namespace Rita

/-- Sorting with the natural order on the rationals; Python sorted(...). -/
def sortQ (l : List ℚ) : List ℚ := List.insertionSort (· ≤ ·) l

/-- Middle of an already sorted list: the middle element for odd length, the
average of the two middle elements for even length; junk value 0 on []. -/
def med (l : List ℚ) : ℚ :=
  let n := l.length
  if n % 2 = 1 then l.getD (n / 2) 0
  else (l.getD (n / 2 - 1) 0 + l.getD (n / 2) 0) / 2

/-- np.median: sort, then take the middle. -/
def npMedian (l : List ℚ) : ℚ := med (sortQ l)

/-- Round half to even (the rounding of np.round on floats). -/
def hround {α : Type} [LinearOrderedField α] [FloorRing α] (x : α) : ℤ :=
  if Int.fract x < 1 / 2 then ⌊x⌋
  else if 1 / 2 < Int.fract x then ⌊x⌋ + 1
  else if ⌊x⌋ % 2 = 0 then ⌊x⌋ else ⌊x⌋ + 1

/-- Python int(x): truncation toward zero. -/
def pyInt (q : ℚ) : ℤ := if q < 0 then ⌈q⌉ else ⌊q⌋

/-! Global threshold configuration (module-level constants in the source). -/

def bimodalOutlierRemoval : ℤ := 1
def bimodalMinHours : ℕ := 11
def durMinHours : ℕ := 6
def consistencyIdealHours : ℕ := 12
def histModeSensitivity : ℚ := 5 / 100

/-! calculateBowleySkewness (source lines 445-486). -/

/-- Quartiles q1, q2, q3 computed by calculateBowleySkewness: the cutoffs from
the input length, then np.median of sorted slices (lines 451-462). -/
def bowleyQuartiles (data : List ℚ) : ℚ × ℚ × ℚ :=
  let inputLength := data.length
  let cutoff1 : ℕ := if inputLength % 2 = 0 then inputLength / 2
    else (inputLength - 1) / 2
  let cutoff2 : ℕ := if inputLength % 2 = 0 then inputLength / 2
    else (inputLength - 1) / 2 + 1
  (npMedian (data.take cutoff1), npMedian data, npMedian (data.drop cutoff2))

/-- Body of calculateBowleySkewness: returns (skewness, score). -/
def calculateBowleySkewness (data : List ℚ) : ℚ × ℚ :=
  let q := bowleyQuartiles data
  let num := q.1 + q.2.2 - 2 * q.2.1
  let den := q.2.2 - q.1
  let skewness := if 10 ≤ den ∧ q.2.1 ≠ q.1 ∧ q.2.1 ≠ q.2.2 then num / den else 0
  (skewness, 1 - |skewness|)

/-- calculateBowleySkewness with its fatal exit on empty input (line 447). -/
def calculateBowleySkewnessE (data : List ℚ) : Option (ℚ × ℚ) :=
  if data.length = 0 then none else some (calculateBowleySkewness data)

/-! calculateMedianAbsoluteDeviation (source lines 489-513). -/

/-- Body of calculateMedianAbsoluteDeviation: returns (mad, score). -/
def calculateMedianAbsoluteDeviation (data : List ℚ) (defaultScore : ℚ) :
    ℚ × ℚ :=
  let dataSorted := sortQ data
  let median := npMedian dataSorted
  let deviations := dataSorted.map fun val => |val - median|
  let mad := npMedian deviations
  let score0 := if 1 ≤ median then (median - mad) / median else defaultScore
  let score := if score0 < 0 then 0 else score0
  (mad, score)

/-- calculateMedianAbsoluteDeviation with its fatal exit on empty input
(line 491). -/
def calculateMedianAbsoluteDeviationE (data : List ℚ) (defaultScore : ℚ) :
    Option (ℚ × ℚ) :=
  if data.length = 0 then none
  else some (calculateMedianAbsoluteDeviation data defaultScore)

/-! calculateDistinctCounts (source lines 568-609). -/

/-- Insertion-ordered occurrence-count update for an association list,
modelling a Python dict increment. -/
def bumpKey : List (ℚ × ℕ) → ℚ → List (ℚ × ℕ)
  | [], k => [(k, 1)]
  | (a, c) :: rest, k =>
      if a = k then (a, c + 1) :: rest else (a, c) :: bumpKey rest k

/-- One step of the distinct-value scan: appends to the distinct list when the
value changes and bumps the count map. -/
def distinctStep (st : List ℚ × List (ℚ × ℕ) × ℚ) (currentNumber : ℚ) :
    List ℚ × List (ℚ × ℕ) × ℚ :=
  let distinct := if st.2.2 ≠ currentNumber then st.1 ++ [currentNumber] else st.1
  (distinct, bumpKey st.2.1 currentNumber, currentNumber)

/-- Mode scan over the distinct values (lines 596-607): keeps the first value
whose count is strictly greater than everything seen before. -/
def modeScan (countsMap : List (ℚ × ℕ)) (distinct : List ℚ) (mode : ℚ)
    (maxCount : ℕ) : ℚ × ℕ :=
  distinct.foldl
    (fun st number =>
      let count := ((countsMap.find? fun p => p.1 = number).map Prod.snd).getD 0
      if st.2 < count then (number, count) else st)
    (mode, maxCount)

/-- Body of calculateDistinctCounts: distinct values, aligned counts, mode and
mode count of a (defensively re-sorted) sequence.  Requires a nonempty input;
the length guard lives in calculateDistinctCountsE. -/
def calculateDistinctCounts (sortedIn0 : List ℚ) :
    List ℚ × List ℕ × ℚ × ℕ :=
  let sortedIn := sortQ sortedIn0
  match sortedIn with
  | [] => ([], [], 0, 0)
  | lastNumber :: rest =>
      let st0 := ([lastNumber], bumpKey [] lastNumber, lastNumber)
      let st := rest.foldl distinctStep st0
      let countsArray := st.1.map fun number =>
        ((st.2.1.find? fun p => p.1 = number).map Prod.snd).getD 0
      let mode0 := st.1.getD 0 0
      let maxCount0 := ((st.2.1.find? fun p => p.1 = mode0).map Prod.snd).getD 0
      let m := modeScan st.2.1 st.1 mode0 maxCount0
      (st.1, countsArray, m.1, m.2)

/-- calculateDistinctCounts with its fatal exit when fewer than 2 items are
supplied (lines 569-571). -/
def calculateDistinctCountsE (sortedIn : List ℚ) :
    Option (List ℚ × List ℕ × ℚ × ℕ) :=
  if sortedIn.length < 2 then none else some (calculateDistinctCounts sortedIn)

/-! createBuckets (source lines 340-363). -/

/-- createBuckets: 25 boundary timestamps; index 0 is start, interior indices
are start plus multiples of the floored step, the final index is overwritten
with floor stop.  Meaningful for 1 or more buckets, as in the source. -/
def createBuckets (start stop : ℚ) (size : ℕ) : List ℚ :=
  let total := size + 1
  let step : ℤ := ⌊((⌊stop⌋ - ⌊start⌋ : ℤ) : ℚ) / ((total : ℚ) - 1)⌋
  (start :: (List.range' 1 (size - 1)).map fun i => start + (i : ℚ) * (step : ℚ))
    ++ [((⌊stop⌋ : ℤ) : ℚ)]

/-! getFrequencyCounts (source lines 398-442). -/

/-- The run-tracking loop of getFrequencyCounts, including its final
comparison of currentRun with longestRun after the loop. -/
def longestRunAux : List ℕ → ℕ → ℕ → ℕ
  | [], longestRun, currentRun =>
      if longestRun < currentRun then currentRun else longestRun
  | item :: rest, longestRun, currentRun =>
      if 0 < item then longestRunAux rest longestRun (currentRun + 1)
      else longestRunAux rest
        (if longestRun < currentRun then currentRun else longestRun) 0

/-- Insertion-ordered occurrence-count update with integer keys. -/
def bumpKeyZ : List (ℤ × ℕ) → ℤ → List (ℤ × ℕ)
  | [], k => [(k, 1)]
  | (a, c) :: rest, k =>
      if a = k then (a, c + 1) :: rest else (a, c) :: bumpKeyZ rest k

/-- getFrequencyCounts: frequency-of-frequency map, active-bucket count and
the circular longest run.  The source interleaves everything in one loop over
the index range doubled; the pieces do not interact, so they are rendered as
one fold per output: the count map over the first pass (the iterations with
index below the length) and the run scan over the list appended to itself
(both passes), with the final cap at the list length. -/
def getFrequencyCounts (freqList : List ℕ) : List (ℤ × ℕ) × ℕ × ℕ :=
  let largestConnCount :=
    freqList.foldl (fun acc item => if acc < item then item else acc) 0
  let totalBars := (freqList.filter fun item => decide (0 < item)).length
  let bucketSize : ℤ := ⌈(largestConnCount : ℚ) * histModeSensitivity⌉
  let freqCount := freqList.foldl
    (fun m item =>
      if 0 < item then
        bumpKeyZ m (⌊(item : ℚ) / (bucketSize : ℚ)⌋ * bucketSize)
      else m)
    []
  let longestRun0 := longestRunAux (freqList ++ freqList) 0 0
  let longestRun :=
    if freqList.length < longestRun0 then freqList.length else longestRun0
  (freqCount, totalBars, longestRun)

/-! createHistogram (source lines 366-395). -/

/-- Inner cursor-advance loop of createHistogram: the first j in the range
from i+1 to the second-to-last boundary index with entry below boundary j+1;
i itself when the loop finds none (the cursor then stays put). -/
def findJ (bucketDivs : List ℚ) (entry : ℚ) (i : ℕ) : ℕ :=
  match (List.range' (i + 1) (bucketDivs.length - 1 - (i + 1))).find?
      (fun j => decide (entry < bucketDivs.getD (j + 1) 0)) with
  | some j => j
  | none => i

/-- Main loop of createHistogram over the sorted timestamps.  The mutable
variable bucket of the source always equals boundary i+1, so it is read off
bucketDivs directly. -/
def histLoop (bucketDivs : List ℚ) : List ℚ → ℕ → List ℕ → ℕ × List ℕ
  | [], i, freqList => (i, freqList)
  | entry :: rest, i, freqList =>
      if entry < bucketDivs.getD (i + 1) 0 then
        histLoop bucketDivs rest i (freqList.set i (freqList.getD i 0 + 1))
      else
        let i2 := findJ bucketDivs entry i
        histLoop bucketDivs rest i2 (freqList.set i2 (freqList.getD i2 0 + 1))

/-- createHistogram: per-bucket frequencies plus the derived statistics of
getFrequencyCounts. -/
def createHistogram (bucketDivs : List ℚ) (sortedData : List ℚ) :
    List ℕ × List (ℤ × ℕ) × ℕ × ℕ :=
  let freqList :=
    (histLoop bucketDivs sortedData 0
      (List.replicate (bucketDivs.length - 1) 0)).2
  let f := getFrequencyCounts freqList
  (freqList, f.1, f.2.1, f.2.2)

/-! calculateCoefficientOfVariationScore (source lines 289-315). -/

/-- Coefficient-of-variation score: population standard deviation over the
absolute mean of the bucket frequencies; 0 when the ratio exceeds 1, else
1 minus the ratio rounded to three decimals, capped at 1.  The square root
forces this single score into the reals. -/
noncomputable def calculateCoefficientOfVariationScore (freqList : List ℕ) :
    ℝ :=
  let total : ℚ := freqList.foldl (fun acc e => acc + (e : ℚ)) 0
  let freqMean : ℚ := total / (freqList.length : ℚ)
  let sd0 : ℚ := freqList.foldl (fun acc e => acc + ((e : ℚ) - freqMean) ^ 2) 0
  let sd : ℝ := Real.sqrt ((sd0 : ℝ) / (freqList.length : ℝ))
  let cv : ℝ := sd / |(freqMean : ℝ)|
  let cvScore : ℝ :=
    if 1 < cv then 0 else ((hround ((1 - cv) * 1000) : ℤ) : ℝ) / 1000
  if 1 < cvScore then 1 else cvScore

/-! calculateBimodalFitScore (source lines 317-336). -/

/-- The largest / secondLargest scan of calculateBimodalFitScore. -/
def top2Scan (vals : List ℕ) : ℕ × ℕ :=
  vals.foldl
    (fun st val =>
      if st.1 < val then (val, st.1)
      else if st.2 < val then (st.1, val)
      else st)
    (0, 0)

/-- Bimodal-fit score: sum of the two largest frequency-of-frequency counts
over max(totalBars - 1, 1), evaluated only with at least 11 active buckets,
rounded up to three decimals and capped at 1. -/
def calculateBimodalFitScore (freqCount : List (ℤ × ℕ)) (totalBars : ℕ) : ℚ :=
  let bimodalFit : ℚ :=
    if bimodalMinHours ≤ totalBars then
      let t := top2Scan (freqCount.map Prod.snd)
      ((t.1 + t.2 : ℕ) : ℚ) /
        ((max ((totalBars : ℤ) - bimodalOutlierRemoval) 1 : ℤ) : ℚ)
    else 0
  let bimodalFitScore : ℚ := ((⌈bimodalFit * 1000⌉ : ℤ) : ℚ) / 1000
  if 1 < bimodalFitScore then 1 else bimodalFitScore

/-! getTsHistogramScore (source lines 267-287). -/

/-- getTsHistogramScore: buckets, histogram, derived statistics, and the
final histogram score, the maximum of the coefficient-of-variation score and
the bimodal-fit score. -/
noncomputable def getTsHistogramScore (start stop : ℚ) (sortedData : List ℚ) :
    List ℚ × List ℕ × List (ℤ × ℕ) × ℕ × ℕ × ℝ :=
  let bucketDivs := createBuckets start stop 24
  let h := createHistogram bucketDivs sortedData
  (bucketDivs, h.1, h.2.1, h.2.2.1, h.2.2.2,
    max (calculateCoefficientOfVariationScore h.1)
      ((calculateBimodalFitScore h.2.1 h.2.2.1 : ℚ) : ℝ))

/-! getDurationScore (source lines 221-254). -/

/-- getDurationScore with its fatal validation exits as none: threshold,
window and span checks, then coverage, consistency and their maximum, all
three zero when fewer active buckets than durMinHours. -/
def getDurationScore (dmin dmax histMin histMax : ℚ)
    (totalBars longestConsecutiveRun : ℕ) : Option (ℚ × ℚ × ℚ) :=
  if durMinHours < 1 ∨ consistencyIdealHours < 1 then none
  else if dmax ≤ dmin then none
  else if histMax ≤ histMin then none
  else some (
    if durMinHours ≤ totalBars then
      let coverage0 : ℚ :=
        ((⌈(histMax - histMin) / (dmax - dmin) * 1000⌉ : ℤ) : ℚ) / 1000
      let coverage := if 1 < coverage0 then 1 else coverage0
      let consistency0 : ℚ :=
        ((⌈(longestConsecutiveRun : ℚ) / (consistencyIdealHours : ℚ) * 1000⌉ :
          ℤ) : ℚ) / 1000
      let consistency := if 1 < consistency0 then 1 else consistency0
      (coverage, consistency, max coverage consistency)
    else (0, 0, 0))

/-! getTsScore (source lines 518-564). -/

/-- Inter-arrival deltas: differences of consecutive truncated timestamps. -/
def pairwiseDeltas : List ℚ → List ℚ
  | a :: b :: rest => ((pyInt b - pyInt a : ℤ) : ℚ) :: pairwiseDeltas (b :: rest)
  | _ => []

/-- Index of the first strictly positive element (the nonZeroIndex search
loop with break, lines 537-542); none when every element is nonpositive. -/
def findFirstPos : List ℚ → Option ℕ
  | [] => none
  | x :: xs => if 0 < x then some 0 else (findFirstPos xs).map (· + 1)

/-- getTsScore: score the sorted inter-arrival deltas, stripped up to the
first positive delta, with skewness and MADM (defaultScore 1); fatal exits of
the callees propagate as none. -/
def getTsScore (sortedData : List ℚ) : Option (ℚ × ℚ × ℚ) :=
  let deltaTimesFull := sortQ (pairwiseDeltas sortedData)
  (calculateDistinctCountsE deltaTimesFull).bind fun _ =>
  let nonZeroIndex := (findFirstPos deltaTimesFull).getD 0
  let deltaTimes := deltaTimesFull.drop nonZeroIndex
  (calculateBowleySkewnessE deltaTimes).bind fun ts1 =>
  (calculateMedianAbsoluteDeviationE deltaTimes 1).bind fun tm =>
  some (((⌈(ts1.2 + tm.2) / 2 * 1000⌉ : ℤ) : ℚ) / 1000, ts1.1, tm.1)

/-! The beacon score aggregation in analyze (source lines 211-215). -/

/-- Composite beacon score: equal-weighted combination of the four
sub-scores, rounded (half to even, as np.round does) to three decimals. -/
def analyzeScore (tsScore dsScore durScore histScore : ℚ) : ℚ :=
  ((hround ((tsScore * (25 / 100) + dsScore * (25 / 100) +
      durScore * (25 / 100) + histScore * (25 / 100)) * 1000) : ℤ) : ℚ) / 1000

/-! Specification-side definitions, written from the words of the spec, to be
compared with the code-side definitions above. -/

/-- Length of the run of strictly positive entries at the head of a list. -/
def posRun (l : List ℕ) : ℕ := (l.takeWhile fun x => decide (0 < x)).length

/-- Longest run of strictly positive entries anywhere in a (linear) list:
maximum of posRun over all suffixes. -/
def maxRun : List ℕ → ℕ
  | [] => 0
  | x :: xs => max (posRun (x :: xs)) (maxRun xs)

/-- Rotation of a list by s positions. -/
def rot (l : List ℕ) (s : ℕ) : List ℕ := l.drop s ++ l.take s

/-- Maximum of a list of naturals (0 for the empty list). -/
def maxN (l : List ℕ) : ℕ := l.foldr max 0

/-- Modelled from the spec: longest run of consecutive active buckets,
computed circularly — the run starting at each bucket position may wrap from
the last bucket around to the first, and a run never counts a bucket twice
(so it is never longer than the number of buckets). -/
def circularLongestRun (l : List ℕ) : ℕ :=
  maxN ((List.range l.length).map fun s => posRun (rot l s))

/-- Modelled from the spec: the two greatest values among a list of counts
(with multiplicity; 0 padding when fewer than two counts exist): the maximum,
and the maximum after removing one occurrence of it. -/
def specTop2 (vals : List ℕ) : ℕ × ℕ :=
  (maxN vals, maxN (vals.erase (maxN vals)))

/-! Shared helper lemmas. -/

theorem hround_mem (x : ℚ) : hround x = ⌊x⌋ ∨ hround x = ⌊x⌋ + 1 := by
  unfold hround
  split_ifs <;> simp

theorem hround_nonneg {x : ℚ} (h : 0 ≤ x) : 0 ≤ hround x := by
  have h0 : 0 ≤ ⌊x⌋ := Int.floor_nonneg.mpr h
  rcases hround_mem x with h1 | h1 <;> omega

theorem hround_le {x : ℚ} {n : ℤ} (h : x ≤ n) : hround x ≤ n := by
  have hf : ⌊x⌋ ≤ n := by
    have h2 : ⌊x⌋ ≤ ⌊(n : ℚ)⌋ := Int.floor_le_floor h
    simpa using h2
  rcases lt_or_eq_of_le hf with h4 | h4
  · rcases hround_mem x with h1 | h1 <;> omega
  · have hfr : Int.fract x = x - (⌊x⌋ : ℚ) := rfl
    have hx : x - (⌊x⌋ : ℚ) ≤ 0 := by
      have : ((⌊x⌋ : ℤ) : ℚ) = ((n : ℤ) : ℚ) := by exact_mod_cast h4
      linarith [h, this]
    unfold hround
    split_ifs with h1 h2 h3
    · exact hf
    · exfalso; rw [hfr] at h1 h2; linarith
    · exfalso; rw [hfr] at h1 h2; linarith
    · exfalso; rw [hfr] at h1 h2; linarith

theorem if_one_lt_eq_min (x : ℚ) : (if 1 < x then 1 else x) = min x 1 := by
  split_ifs with h
  · exact (min_eq_right h.le).symm
  · exact (min_eq_left (not_lt.mp h)).symm

theorem sortQ_sorted (l : List ℚ) : List.Sorted (· ≤ ·) (sortQ l) :=
  List.sorted_insertionSort _ l

theorem sortQ_perm (l : List ℚ) : (sortQ l).Perm l := List.perm_insertionSort _ l

theorem sortQ_eq_of_sorted {l : List ℚ} (h : List.Sorted (· ≤ ·) l) :
    sortQ l = l :=
  List.Sorted.insertionSort_eq h

theorem sortQ_eq_sortQ_of_perm {l₁ l₂ : List ℚ} (h : l₁.Perm l₂) :
    sortQ l₁ = sortQ l₂ :=
  List.eq_of_perm_of_sorted
    ((sortQ_perm l₁).trans (h.trans (sortQ_perm l₂).symm))
    (sortQ_sorted l₁) (sortQ_sorted l₂)

theorem npMedian_perm {l₁ l₂ : List ℚ} (h : l₁.Perm l₂) :
    npMedian l₁ = npMedian l₂ := by
  unfold npMedian
  rw [sortQ_eq_sortQ_of_perm h]

theorem npMedian_sortQ (l : List ℚ) : npMedian (sortQ l) = npMedian l :=
  npMedian_perm (sortQ_perm l)

theorem npMedian_eq_med {l : List ℚ} (h : List.Sorted (· ≤ ·) l) :
    npMedian l = med l := by
  unfold npMedian
  rw [sortQ_eq_of_sorted h]

/-! Claim C1: the beacon score aggregator. -/

/-- C1: the Beacon Score Aggregator returns the equal-weighted mean of the
four sub-scores rounded (as np.round rounds, half to even) to three decimal
places, and whenever all four inputs lie in [0,1] the composite also lies
in [0,1]. -/
theorem aggregator_weighted_mean_c1 (t s h d : ℚ) :
    analyzeScore t s h d =
      ((hround (((t + s + h + d) * (1 / 4)) * 1000) : ℤ) : ℚ) / 1000 ∧
    (0 ≤ t → t ≤ 1 → 0 ≤ s → s ≤ 1 → 0 ≤ h → h ≤ 1 → 0 ≤ d → d ≤ 1 →
      0 ≤ analyzeScore t s h d ∧ analyzeScore t s h d ≤ 1) := by
  have harg : (t * (25 / 100) + s * (25 / 100) + h * (25 / 100) +
      d * (25 / 100)) * 1000 = ((t + s + h + d) * (1 / 4)) * 1000 := by ring
  constructor
  · rw [analyzeScore, harg]
  · intro h1 h2 h3 h4 h5 h6 h7 h8
    rw [analyzeScore, harg]
    have hlo : (0 : ℚ) ≤ ((t + s + h + d) * (1 / 4)) * 1000 := by linarith
    have hhi : ((t + s + h + d) * (1 / 4)) * 1000 ≤ ((1000 : ℤ) : ℚ) := by
      push_cast
      linarith
    have r1 : 0 ≤ hround (((t + s + h + d) * (1 / 4)) * 1000) :=
      hround_nonneg hlo
    have r2 : hround (((t + s + h + d) * (1 / 4)) * 1000) ≤ 1000 :=
      hround_le hhi
    have c1 : (0 : ℚ) ≤ ((hround (((t + s + h + d) * (1 / 4)) * 1000) : ℤ) : ℚ) := by
      exact_mod_cast r1
    have c2 : ((hround (((t + s + h + d) * (1 / 4)) * 1000) : ℤ) : ℚ) ≤ 1000 := by
      exact_mod_cast r2
    constructor
    · linarith
    · linarith

/-- Witness for C1 at the concrete sub-scores 1/2, 1/2, 1/2, 1/2. -/
theorem aggregator_weighted_mean_c1_witness :
    0 ≤ analyzeScore (1/2) (1/2) (1/2) (1/2) ∧
      analyzeScore (1/2) (1/2) (1/2) (1/2) ≤ 1 :=
  (aggregator_weighted_mean_c1 (1/2) (1/2) (1/2) (1/2)).2
    (by norm_num) (by norm_num) (by norm_num) (by norm_num)
    (by norm_num) (by norm_num) (by norm_num) (by norm_num)

/-! Claim C3: the MADM scorer. -/

/-- C3: the MADM scorer computes the median m of the data and the median mad
of the absolute deviations from m, returns (m - mad) / m when m is at least
1 and defaultScore when m is below 1, replacing a negative result by 0; on
[1,1,1,1] it yields median 1, mad 0 and score 1.  (NaN cannot arise in exact
rational arithmetic; the source's isnan clamp is vacuous here.) -/
theorem madm_score_c3 (data : List ℚ) (defaultScore : ℚ) (hne : data ≠ []) :
    (calculateMedianAbsoluteDeviation data defaultScore =
      let median := npMedian data
      let mad := npMedian (data.map fun val => |val - median|)
      let raw := if 1 ≤ median then (median - mad) / median else defaultScore
      (mad, if raw < 0 then 0 else raw)) ∧
    npMedian [(1 : ℚ), 1, 1, 1] = 1 ∧
    calculateMedianAbsoluteDeviation [1, 1, 1, 1] defaultScore = (0, 1) := by
  refine ⟨?_,
    by norm_num [npMedian, med, sortQ, List.insertionSort, List.orderedInsert],
    ?_⟩
  · have hmap :
        npMedian ((sortQ data).map fun val => |val - npMedian data|) =
          npMedian (data.map fun val => |val - npMedian data|) :=
      npMedian_perm (List.Perm.map _ (sortQ_perm data))
    dsimp only [calculateMedianAbsoluteDeviation]
    rw [npMedian_sortQ, hmap]
  · norm_num [calculateMedianAbsoluteDeviation, npMedian, med, sortQ,
      List.insertionSort, List.orderedInsert]

/-- Witness for C3 at data [2, 4, 9] with defaultScore 0: median 4, absolute
deviations {2, 0, 5} with median 2, score (4 - 2) / 4 = 1/2. -/
theorem madm_score_c3_witness :
    calculateMedianAbsoluteDeviation [2, 4, 9] 0 = (2, 1/2) :=
  ((madm_score_c3 [2, 4, 9] 0 (by simp)).1).trans
    (by norm_num [npMedian, med, sortQ, List.insertionSort, List.orderedInsert])

/-! Claim C5: the duration/coverage scorer. -/

/-- C5: with valid thresholds and windows, the duration scorer returns all
zeros when fewer than 6 buckets are active, and otherwise coverage is the
candidate span over the dataset span (rounded up to three decimals, capped
at 1), consistency is the longest run over 12 (rounded up to three decimals,
capped at 1), and the score is their maximum; the spec's concrete example
gives coverage 1/2, consistency 1 and score 1. -/
theorem duration_score_c5 (dmin dmax histMin histMax : ℚ)
    (totalBars longestRun : ℕ) (h1 : dmin < dmax) (h2 : histMin < histMax) :
    (getDurationScore dmin dmax histMin histMax totalBars longestRun =
      some (if totalBars < 6 then (0, 0, 0)
        else
          (min (((⌈(histMax - histMin) / (dmax - dmin) * 1000⌉ : ℤ) : ℚ) / 1000) 1,
           min (((⌈(longestRun : ℚ) / 12 * 1000⌉ : ℤ) : ℚ) / 1000) 1,
           max
             (min (((⌈(histMax - histMin) / (dmax - dmin) * 1000⌉ : ℤ) : ℚ) / 1000) 1)
             (min (((⌈(longestRun : ℚ) / 12 * 1000⌉ : ℤ) : ℚ) / 1000) 1)))) ∧
    getDurationScore 0 86400 0 43200 12 12 = some (1/2, 1, 1) := by
  constructor
  · unfold getDurationScore durMinHours consistencyIdealHours
    rw [if_neg (by omega), if_neg (not_le.mpr h1), if_neg (not_le.mpr h2)]
    by_cases h : totalBars < 6
    · rw [if_neg (by omega), if_pos h]
    · rw [if_pos (by omega), if_neg h]
      push_cast
      rw [if_one_lt_eq_min, if_one_lt_eq_min]
  · norm_num [getDurationScore, durMinHours, consistencyIdealHours,
      min_def, max_def]

/-- Witness for C5 at dataset window [0, 100], candidate span [0, 30], 7
active buckets, longest run 3: coverage 3/10, consistency 1/4, score 3/10. -/
theorem duration_score_c5_witness :
    getDurationScore 0 100 0 30 7 3 = some (3/10, 1/4, 3/10) :=
  ((duration_score_c5 0 100 0 30 7 3 (by norm_num) (by norm_num)).1).trans
    (by norm_num [min_def, max_def])

/-! Claim C7: fail-fast behaviour on sub-minimum input. -/

/-- C7 counterexample: the Skewness Scorer, given a single value (fewer than
2 values), does not fail — it returns skewness 0 and score 1. -/
theorem insufficient_data_c7_counterexample :
    calculateBowleySkewnessE [5] = some (0, 1) := by
  norm_num [calculateBowleySkewnessE, calculateBowleySkewness, bowleyQuartiles,
    npMedian, med, sortQ, List.insertionSort, List.orderedInsert]

/-- C7 as amended: the Distinct-Value Counter fails exactly when given fewer
than 2 values and the MADM scorer fails exactly when given an empty sequence,
but the Skewness Scorer fails only when given an empty sequence (on a single
value it returns a score instead of failing). -/
theorem insufficient_data_c7 :
    (∀ l : List ℚ, calculateDistinctCountsE l = none ↔ l.length < 2) ∧
    (∀ (l : List ℚ) (d : ℚ),
      calculateMedianAbsoluteDeviationE l d = none ↔ l = []) ∧
    (∀ l : List ℚ, calculateBowleySkewnessE l = none ↔ l = []) := by
  refine ⟨fun l => ?_, fun l d => ?_, fun l => ?_⟩
  · unfold calculateDistinctCountsE
    split_ifs with h <;> simp [h]
  · unfold calculateMedianAbsoluteDeviationE
    split_ifs with h
    · simp [List.length_eq_zero.mp h]
    · rw [List.length_eq_zero] at h
      simp [h]
  · unfold calculateBowleySkewnessE
    split_ifs with h
    · simp [List.length_eq_zero.mp h]
    · rw [List.length_eq_zero] at h
      simp [h]

/-! Claim C2: the Bowley skewness scorer on sorted input. -/

/-- C2: on ascending-sorted input the Bowley scorer takes q1, q2, q3 as the
medians of the lower half, the whole sequence and the upper half (for even n
the first and last n/2 elements, for odd n the middle element excluded from
both halves), computes skewness by the quartile formula exactly when the
spread guard den at least 10 and q2 distinct from q1 and q3 holds and 0
otherwise, and returns the unclamped score 1 - abs skewness. -/
theorem bowley_skewness_c2 (data : List ℚ) (hs : List.Sorted (· ≤ ·) data)
    (hn : 1 ≤ data.length) :
    calculateBowleySkewness data =
      let n := data.length
      let q1 := med (data.take (if n % 2 = 0 then n / 2 else (n - 1) / 2))
      let q2 := med data
      let q3 := med (data.drop (if n % 2 = 0 then n / 2 else (n - 1) / 2 + 1))
      let skewness :=
        if 10 ≤ q3 - q1 ∧ q2 ≠ q1 ∧ q2 ≠ q3 then (q1 + q3 - 2 * q2) / (q3 - q1)
        else 0
      (skewness, 1 - |skewness|) := by
  dsimp only [calculateBowleySkewness, bowleyQuartiles]
  rw [npMedian_eq_med hs,
    npMedian_eq_med (List.Pairwise.sublist (List.take_sublist _ _) hs),
    npMedian_eq_med (List.Pairwise.sublist (List.drop_sublist _ _) hs)]

/-- Witness for C2 at the sorted input [1, 2, 3]: quartiles 1, 2, 3, spread
2 below the guard, so skewness 0 and score 1. -/
theorem bowley_skewness_c2_witness :
    calculateBowleySkewness [1, 2, 3] = (0, 1) :=
  (bowley_skewness_c2 [1, 2, 3] (by decide) (by decide)).trans
    (by norm_num [med, List.getD_cons_zero, List.getD_cons_succ])

/-! Claim C10: quartile monotonicity and score bounds on sorted input. -/

theorem sorted_getD_mono {l : List ℚ} (h : List.Sorted (· ≤ ·) l) {i j : ℕ}
    (hij : i ≤ j) (hj : j < l.length) : l.getD i 0 ≤ l.getD j 0 := by
  have hi : i < l.length := lt_of_le_of_lt hij hj
  rw [List.getD_eq_getElem l 0 hi, List.getD_eq_getElem l 0 hj]
  rcases lt_or_eq_of_le hij with hlt | rfl
  · have := List.pairwise_iff_get.mp h ⟨i, hi⟩ ⟨j, hj⟩ hlt
    simpa [List.get_eq_getElem] using this
  · exact le_refl _

theorem med_bounds {l : List ℚ} (h : List.Sorted (· ≤ ·) l) (hne : l ≠ []) :
    l.getD 0 0 ≤ med l ∧ med l ≤ l.getD (l.length - 1) 0 := by
  have hlen : 0 < l.length := List.length_pos.mpr hne
  dsimp only [med]
  split_ifs with hpar
  · exact ⟨sorted_getD_mono h (Nat.zero_le _) (by omega),
      sorted_getD_mono h (by omega) (by omega)⟩
  · have hge2 : 2 ≤ l.length := by omega
    constructor
    · have g1 := sorted_getD_mono h (Nat.zero_le (l.length / 2 - 1)) (by omega)
      have g2 := sorted_getD_mono h (Nat.zero_le (l.length / 2)) (by omega)
      linarith
    · have g1 := sorted_getD_mono h
        (show l.length / 2 - 1 ≤ l.length - 1 by omega) (by omega)
      have g2 := sorted_getD_mono h
        (show l.length / 2 ≤ l.length - 1 by omega) (by omega)
      linarith

theorem getD_take {l : List ℚ} {m i : ℕ} (h : i < m) (h2 : i < l.length) :
    (l.take m).getD i 0 = l.getD i 0 := by
  have hlt : i < (l.take m).length := by
    simp only [List.length_take]
    omega
  rw [List.getD_eq_getElem _ 0 hlt, List.getD_eq_getElem _ 0 h2,
    List.getElem_take]

theorem getD_drop {l : List ℚ} {k i : ℕ} (h : k + i < l.length) :
    (l.drop k).getD i 0 = l.getD (k + i) 0 := by
  have hlt : i < (l.drop k).length := by
    simp only [List.length_drop]
    omega
  rw [List.getD_eq_getElem _ 0 hlt, List.getD_eq_getElem _ 0 h,
    List.getElem_drop]

theorem bowleyQuartiles_mono {data : List ℚ}
    (hs : List.Sorted (· ≤ ·) data) (h2 : 2 ≤ data.length) :
    (bowleyQuartiles data).1 ≤ (bowleyQuartiles data).2.1 ∧
      (bowleyQuartiles data).2.1 ≤ (bowleyQuartiles data).2.2 := by
  dsimp only [bowleyQuartiles]
  by_cases hpar : data.length % 2 = 0
  · rw [if_pos hpar, if_pos hpar]
    set n := data.length with hn
    set m := n / 2 with hm
    have hst := List.Pairwise.sublist (List.take_sublist m data) hs
    have hsd := List.Pairwise.sublist (List.drop_sublist m data) hs
    rw [npMedian_eq_med hs, npMedian_eq_med hst, npMedian_eq_med hsd]
    have hm1 : 1 ≤ m := by omega
    have hmn : m < n := by omega
    have htl : (data.take m).length = m := by
      simp only [List.length_take]
      omega
    have htne : data.take m ≠ [] := by
      intro hc
      rw [hc] at htl
      simp at htl
      omega
    have hdl : (data.drop m).length = n - m := by
      simp only [List.length_drop]
    have hdne : data.drop m ≠ [] := by
      intro hc
      rw [hc] at hdl
      simp at hdl
      omega
    have hq1 : med (data.take m) ≤ data.getD (m - 1) 0 := by
      have hb := (med_bounds hst htne).2
      rw [htl] at hb
      rw [getD_take (by omega) (by omega)] at hb
      exact hb
    have hq3 : data.getD m 0 ≤ med (data.drop m) := by
      have hb := (med_bounds hsd hdne).1
      rw [show (data.drop m).getD 0 0 = data.getD (m + 0) 0 from
        getD_drop (by omega)] at hb
      simpa using hb
    have hmono : data.getD (m - 1) 0 ≤ data.getD m 0 :=
      sorted_getD_mono hs (by omega) (by omega)
    have hmed : med data = (data.getD (m - 1) 0 + data.getD m 0) / 2 := by
      unfold med
      rw [if_neg (by omega)]
    rw [hmed]
    constructor
    · linarith
    · linarith
  · rw [if_neg hpar, if_neg hpar]
    set n := data.length with hn
    set m := (n - 1) / 2 with hm
    have hst := List.Pairwise.sublist (List.take_sublist m data) hs
    have hsd := List.Pairwise.sublist (List.drop_sublist (m + 1) data) hs
    rw [npMedian_eq_med hs, npMedian_eq_med hst, npMedian_eq_med hsd]
    have hn3 : 3 ≤ n := by omega
    have hm1 : 1 ≤ m := by omega
    have hmn : m + 1 < n := by omega
    have htl : (data.take m).length = m := by
      simp only [List.length_take]
      omega
    have htne : data.take m ≠ [] := by
      intro hc
      rw [hc] at htl
      simp at htl
      omega
    have hdl : (data.drop (m + 1)).length = n - (m + 1) := by
      simp only [List.length_drop]
    have hdne : data.drop (m + 1) ≠ [] := by
      intro hc
      rw [hc] at hdl
      simp at hdl
      omega
    have hq1 : med (data.take m) ≤ data.getD (m - 1) 0 := by
      have hb := (med_bounds hst htne).2
      rw [htl] at hb
      rw [getD_take (by omega) (by omega)] at hb
      exact hb
    have hq3 : data.getD (m + 1) 0 ≤ med (data.drop (m + 1)) := by
      have hb := (med_bounds hsd hdne).1
      rw [show (data.drop (m + 1)).getD 0 0 = data.getD (m + 1 + 0) 0 from
        getD_drop (by omega)] at hb
      simpa using hb
    have hmed : med data = data.getD m 0 := by
      unfold med
      rw [if_pos (by omega), show n / 2 = m by omega]
    rw [hmed]
    constructor
    · have hmono : data.getD (m - 1) 0 ≤ data.getD m 0 :=
        sorted_getD_mono hs (by omega) (by omega)
      linarith
    · have hmono : data.getD m 0 ≤ data.getD (m + 1) 0 :=
        sorted_getD_mono hs (by omega) (by omega)
      linarith

/-- C10: for ascending-sorted input of length at least 2, the Bowley
quartiles satisfy q1 at most q2 at most q3, the skewness has absolute value
at most 1, and the unclamped score 1 - abs skewness lies in [0, 1]; a
negative skewness-derived score is unreachable for sorted input. -/
theorem bowley_bounds_c10 (data : List ℚ) (hs : List.Sorted (· ≤ ·) data)
    (h2 : 2 ≤ data.length) :
    ((bowleyQuartiles data).1 ≤ (bowleyQuartiles data).2.1 ∧
      (bowleyQuartiles data).2.1 ≤ (bowleyQuartiles data).2.2) ∧
    |(calculateBowleySkewness data).1| ≤ 1 ∧
    0 ≤ (calculateBowleySkewness data).2 ∧
      (calculateBowleySkewness data).2 ≤ 1 := by
  obtain ⟨hq12, hq23⟩ := bowleyQuartiles_mono hs h2
  have habs : |(calculateBowleySkewness data).1| ≤ 1 := by
    dsimp only [calculateBowleySkewness]
    split_ifs with hg
    · obtain ⟨hden, -, -⟩ := hg
      have hpos : 0 < (bowleyQuartiles data).2.2 - (bowleyQuartiles data).1 := by
        linarith
      rw [abs_div, abs_of_pos hpos, div_le_one hpos, abs_le]
      constructor
      · linarith
      · linarith
    · simp
  refine ⟨⟨hq12, hq23⟩, habs, ?_, ?_⟩
  · dsimp only [calculateBowleySkewness] at habs ⊢
    linarith
  · dsimp only [calculateBowleySkewness]
    have h0 := abs_nonneg
      (if 10 ≤ (bowleyQuartiles data).2.2 - (bowleyQuartiles data).1 ∧
          (bowleyQuartiles data).2.1 ≠ (bowleyQuartiles data).1 ∧
          (bowleyQuartiles data).2.1 ≠ (bowleyQuartiles data).2.2 then
        ((bowleyQuartiles data).1 + (bowleyQuartiles data).2.2 -
            2 * (bowleyQuartiles data).2.1) /
          ((bowleyQuartiles data).2.2 - (bowleyQuartiles data).1)
      else 0)
    linarith

/-- Witness for C10 at the sorted input [0, 20]: quartiles 0, 10, 20, spread
20 activates the formula, skewness 0, score 1. -/
theorem bowley_bounds_c10_witness :
    ((bowleyQuartiles [0, 20]).1 ≤ (bowleyQuartiles [0, 20]).2.1 ∧
      (bowleyQuartiles [0, 20]).2.1 ≤ (bowleyQuartiles [0, 20]).2.2) ∧
    |(calculateBowleySkewness [0, 20]).1| ≤ 1 ∧
    0 ≤ (calculateBowleySkewness [0, 20]).2 ∧
      (calculateBowleySkewness [0, 20]).2 ≤ 1 :=
  bowley_bounds_c10 [0, 20] (by decide) (by decide)

/-! Claim C6: the histogram (periodicity) score.  First the lemmas relating
the largest/secondLargest scan to the two greatest values of the list. -/

theorem maxN_cons (x : ℕ) (l : List ℕ) : maxN (x :: l) = max x (maxN l) := rfl

theorem le_maxN_of_mem {x : ℕ} {l : List ℕ} (h : x ∈ l) : x ≤ maxN l := by
  induction l with
  | nil => cases h
  | cons a t ih =>
    rcases List.mem_cons.mp h with rfl | h2
    · exact le_max_left _ _
    · exact le_trans (ih h2) (le_max_right _ _)

theorem maxN_le_iff {l : List ℕ} {b : ℕ} : maxN l ≤ b ↔ ∀ x ∈ l, x ≤ b := by
  induction l with
  | nil => simp [maxN]
  | cons a t ih => simp [maxN_cons, Nat.max_le, ih]

theorem maxN_mem {l : List ℕ} (h : l ≠ []) : maxN l ∈ l := by
  induction l with
  | nil => exact absurd rfl h
  | cons a t ih =>
    rcases eq_or_ne t [] with rfl | ht
    · simp [maxN]
    · rw [maxN_cons]
      rcases le_total (maxN t) a with hle | hle
      · rw [max_eq_left hle]
        exact List.mem_cons_self _ _
      · rw [max_eq_right hle]
        exact List.mem_cons_of_mem _ (ih ht)

theorem maxN_append_singleton (l : List ℕ) (v : ℕ) :
    maxN (l ++ [v]) = max (maxN l) v := by
  induction l with
  | nil => simp [maxN, maxN_cons]
  | cons a t ih => simp [maxN_cons, ih, Nat.max_assoc]

theorem top2Scan_append (p : List ℕ) (v : ℕ) :
    top2Scan (p ++ [v]) =
      if (top2Scan p).1 < v then (v, (top2Scan p).1)
      else if (top2Scan p).2 < v then ((top2Scan p).1, v)
      else top2Scan p := by
  unfold top2Scan
  rw [List.foldl_append]
  rfl

theorem top2Scan_eq_specTop2 (l : List ℕ) : top2Scan l = specTop2 l := by
  induction l using List.reverseRecOn with
  | nil => rfl
  | append_singleton p v ih =>
    rw [top2Scan_append, ih]
    unfold specTop2
    by_cases hv : maxN p < v
    · have hvp : v ∉ p := fun hmem => absurd (le_maxN_of_mem hmem) (by omega)
      rw [maxN_append_singleton, max_eq_right hv.le,
        List.erase_append_right _ hvp, List.erase_cons_head, List.append_nil]
      simp [hv]
    · push_neg at hv
      rw [maxN_append_singleton, max_eq_left hv]
      rcases eq_or_ne p [] with rfl | hp
      · have hv0 : v = 0 := Nat.le_zero.mp hv
        subst hv0
        rfl
      · have hmem : maxN p ∈ p := maxN_mem hp
        rw [List.erase_append_left _ hmem, maxN_append_singleton]
        rw [if_neg (not_lt.mpr hv)]
        by_cases hs : maxN (p.erase (maxN p)) < v
        · rw [if_pos hs, max_eq_right hs.le]
        · rw [if_neg hs, max_eq_left (not_lt.mp hs)]

/-- C6: the final histogram score is the maximum of the
coefficient-of-variation score and the bimodal-fit score; the bimodal-fit
score is 0 whenever fewer than 11 buckets are active, and otherwise is
ceil(fit times 1000)/1000 capped at 1, where fit divides the sum of the two
greatest frequency-of-frequency counts by max(totalActiveBuckets - 1, 1). -/
theorem histogram_score_c6 :
    (∀ (start stop : ℚ) (sortedData : List ℚ),
      (getTsHistogramScore start stop sortedData).2.2.2.2.2 =
        max
          (calculateCoefficientOfVariationScore
            (getTsHistogramScore start stop sortedData).2.1)
          ((calculateBimodalFitScore
              (getTsHistogramScore start stop sortedData).2.2.1
              (getTsHistogramScore start stop sortedData).2.2.2.1 : ℚ) : ℝ)) ∧
    (∀ (freqCount : List (ℤ × ℕ)) (totalBars : ℕ),
      calculateBimodalFitScore freqCount totalBars =
        if totalBars < 11 then 0
        else
          min (((⌈(((specTop2 (freqCount.map Prod.snd)).1 +
                  (specTop2 (freqCount.map Prod.snd)).2 : ℕ) : ℚ) /
                ((max ((totalBars : ℤ) - 1) 1 : ℤ) : ℚ) * 1000⌉ : ℤ) : ℚ) /
              1000) 1) := by
  constructor
  · intro start stop sortedData
    rfl
  · intro freqCount totalBars
    dsimp only [calculateBimodalFitScore, bimodalMinHours, bimodalOutlierRemoval]
    by_cases h : totalBars < 11
    · rw [if_pos h, if_neg (show ¬ 11 ≤ totalBars by omega)]
      norm_num
    · rw [if_neg h, if_pos (show 11 ≤ totalBars by omega),
        top2Scan_eq_specTop2, if_one_lt_eq_min]

/-! Claim C4: the circular longest-run computation.  posRun and maxRun
lemmas relate the doubled-list scan of the source to rotations. -/

theorem posRun_cons (x : ℕ) (xs : List ℕ) :
    posRun (x :: xs) = if 0 < x then posRun xs + 1 else 0 := by
  by_cases h : 0 < x <;> simp [posRun, List.takeWhile_cons, h]

theorem posRun_le_length (l : List ℕ) : posRun l ≤ l.length := by
  induction l with
  | nil => simp [posRun]
  | cons x xs ih =>
    rw [posRun_cons, List.length_cons]
    split_ifs <;> omega

theorem posRun_append_le (a b : List ℕ) : posRun a ≤ posRun (a ++ b) := by
  induction a with
  | nil => simp [posRun]
  | cons x xs ih =>
    rw [List.cons_append, posRun_cons, posRun_cons]
    split_ifs <;> omega

theorem posRun_append_of_lt {a : List ℕ} (b : List ℕ)
    (h : posRun a < a.length) : posRun (a ++ b) = posRun a := by
  induction a with
  | nil => simp [posRun] at h
  | cons x xs ih =>
    rw [posRun_cons, List.length_cons] at h
    rw [List.cons_append, posRun_cons, posRun_cons]
    split_ifs with hx
    · rw [if_pos hx] at h
      rw [ih (by omega)]
    · rfl

theorem maxRun_cons (x : ℕ) (xs : List ℕ) :
    maxRun (x :: xs) = max (posRun (x :: xs)) (maxRun xs) := rfl

theorem posRun_le_maxRun (l : List ℕ) : posRun l ≤ maxRun l := by
  cases l with
  | nil => exact le_refl _
  | cons x xs =>
    rw [maxRun_cons]
    exact le_max_left _ _

theorem posRun_drop_le_maxRun (l : List ℕ) : ∀ s, posRun (l.drop s) ≤ maxRun l := by
  induction l with
  | nil => intro s; simp [List.drop_nil, posRun, maxRun]
  | cons x xs ih =>
    intro s
    cases s with
    | zero => exact posRun_le_maxRun _
    | succ t =>
      rw [List.drop_succ_cons, maxRun_cons]
      exact le_trans (ih t) (le_max_right _ _)

theorem maxRun_exists_drop (l : List ℕ) : ∃ s, maxRun l = posRun (l.drop s) := by
  induction l with
  | nil => exact ⟨0, rfl⟩
  | cons x xs ih =>
    obtain ⟨s, hs⟩ := ih
    rcases le_total (maxRun xs) (posRun (x :: xs)) with hle | hle
    · refine ⟨0, ?_⟩
      rw [maxRun_cons, max_eq_left hle, List.drop_zero]
    · refine ⟨s + 1, ?_⟩
      rw [maxRun_cons, max_eq_right hle, List.drop_succ_cons, hs]

theorem longestRunAux_eq (l : List ℕ) : ∀ lo c,
    longestRunAux l lo c = max lo (max (maxRun l) (c + posRun l)) := by
  induction l with
  | nil =>
    intro lo c
    have h1 : maxRun [] = 0 := rfl
    have h2 : posRun [] = 0 := rfl
    simp only [longestRunAux, h1, h2]
    split_ifs <;> omega
  | cons x xs ih =>
    intro lo c
    simp only [longestRunAux]
    by_cases hx : 0 < x
    · rw [if_pos hx, ih, maxRun_cons, posRun_cons, if_pos hx]
      omega
    · rw [if_neg hx, ih, maxRun_cons, posRun_cons, if_neg hx]
      have hp := posRun_le_maxRun xs
      split_ifs <;> omega

theorem getFrequencyCounts_longestRun (l : List ℕ) :
    (getFrequencyCounts l).2.2 = min (maxRun (l ++ l)) l.length := by
  dsimp only [getFrequencyCounts]
  rw [longestRunAux_eq]
  have hp := posRun_le_maxRun (l ++ l)
  split_ifs <;> omega

theorem rot_length (l : List ℕ) (s : ℕ) : (rot l s).length = l.length := by
  simp only [rot, List.length_append, List.length_drop, List.length_take]
  omega

theorem drop_doubled {l : List ℕ} {s : ℕ} (h : s ≤ l.length) :
    (l ++ l).drop s = l.drop s ++ l := by
  rw [List.drop_append_eq_append_drop, Nat.sub_eq_zero_of_le h, List.drop_zero]

theorem rot_append (l : List ℕ) (s : ℕ) :
    rot l s ++ l.drop s = l.drop s ++ l := by
  rw [rot, List.append_assoc, List.take_append_drop]

theorem posRun_rot_le_circ {l : List ℕ} {s : ℕ} (h : s < l.length) :
    posRun (rot l s) ≤ circularLongestRun l :=
  le_maxN_of_mem (List.mem_map_of_mem _ (List.mem_range.mpr h))

theorem longestRun_eq_circular (l : List ℕ) :
    (getFrequencyCounts l).2.2 = circularLongestRun l := by
  rw [getFrequencyCounts_longestRun]
  apply le_antisymm
  · obtain ⟨s, hs⟩ := maxRun_exists_drop (l ++ l)
    by_cases hsL : l.length ≤ s
    · have h1 : (l ++ l).drop s = l.drop (s - l.length) := by
        rw [List.drop_append_eq_append_drop, List.drop_eq_nil_of_le hsL,
          List.nil_append]
      by_cases htL : s - l.length < l.length
      · have h2 : posRun (l.drop (s - l.length)) ≤ posRun (rot l (s - l.length)) :=
          posRun_append_le _ _
        calc min (maxRun (l ++ l)) l.length ≤ maxRun (l ++ l) := min_le_left _ _
          _ = posRun (l.drop (s - l.length)) := by rw [hs, h1]
          _ ≤ posRun (rot l (s - l.length)) := h2
          _ ≤ circularLongestRun l := posRun_rot_le_circ htL
      · have h2 : (l ++ l).drop s = [] := by
          rw [h1, List.drop_eq_nil_of_le (by omega)]
        have hz : maxRun (l ++ l) = 0 := by
          rw [hs, h2]
          rfl
        simp [hz]
    · push_neg at hsL
      have h1 : (l ++ l).drop s = rot l s ++ l.drop s := by
        rw [drop_doubled hsL.le, ← rot_append]
      by_cases hfull : posRun (rot l s) < (rot l s).length
      · have h2 : posRun ((l ++ l).drop s) = posRun (rot l s) := by
          rw [h1]
          exact posRun_append_of_lt _ hfull
        calc min (maxRun (l ++ l)) l.length ≤ maxRun (l ++ l) := min_le_left _ _
          _ = posRun (rot l s) := by rw [hs, h2]
          _ ≤ circularLongestRun l := posRun_rot_le_circ hsL
      · push_neg at hfull
        calc min (maxRun (l ++ l)) l.length ≤ l.length := min_le_right _ _
          _ = (rot l s).length := (rot_length l s).symm
          _ ≤ posRun (rot l s) := hfull
          _ ≤ circularLongestRun l := posRun_rot_le_circ hsL
  · rw [le_min_iff]
    constructor
    · rw [circularLongestRun, maxN_le_iff]
      intro x hx
      obtain ⟨s, hsmem, rfl⟩ := List.mem_map.mp hx
      have hsL : s < l.length := List.mem_range.mp hsmem
      calc posRun (rot l s) ≤ posRun (rot l s ++ l.drop s) := posRun_append_le _ _
        _ = posRun ((l ++ l).drop s) := by rw [rot_append, ← drop_doubled hsL.le]
        _ ≤ maxRun (l ++ l) := posRun_drop_le_maxRun _ _
    · rw [circularLongestRun, maxN_le_iff]
      intro x hx
      obtain ⟨s, hsmem, rfl⟩ := List.mem_map.mp hx
      calc posRun (rot l s) ≤ (rot l s).length := posRun_le_length _
        _ = l.length := rot_length l s

/-- C4: longestConsecutiveRun equals the length of the longest circular run
of consecutive buckets with positive frequency (runs may wrap from the last
bucket to the first), the result never exceeds the number of buckets, and on
the frequency sequence [1,0,1,1,0,1] it is 2, not 3. -/
theorem circular_run_c4 :
    (∀ freqList : List ℕ,
      (getFrequencyCounts freqList).2.2 = circularLongestRun freqList ∧
      (getFrequencyCounts freqList).2.2 ≤ freqList.length) ∧
    (getFrequencyCounts [1, 0, 1, 1, 0, 1]).2.2 = 2 := by
  constructor
  · intro freqList
    refine ⟨longestRun_eq_circular freqList, ?_⟩
    rw [getFrequencyCounts_longestRun]
    exact min_le_right _ _
  · rw [longestRun_eq_circular]
    decide

/-! Claim C9: the histogram builder counts every timestamp exactly once. -/

theorem sum_set_succ (l : List ℕ) : ∀ i, i < l.length →
    (l.set i (l.getD i 0 + 1)).sum = l.sum + 1 := by
  induction l with
  | nil =>
    intro i h
    simp at h
  | cons x xs ih =>
    intro i h
    cases i with
    | zero =>
      simp only [List.getD_cons_zero, List.set_cons_zero, List.sum_cons]
      omega
    | succ t =>
      simp only [List.getD_cons_succ, List.set_cons_succ, List.sum_cons]
      have := ih t (by simpa using h)
      omega

theorem findJ_lt {bucketDivs : List ℚ} {entry : ℚ} {i : ℕ}
    (h : i < bucketDivs.length - 1) :
    findJ bucketDivs entry i < bucketDivs.length - 1 := by
  unfold findJ
  cases hf : (List.range' (i + 1) (bucketDivs.length - 1 - (i + 1))).find?
      (fun j => decide (entry < bucketDivs.getD (j + 1) 0)) with
  | none => exact h
  | some j =>
    show j < bucketDivs.length - 1
    have hmem := List.mem_of_find?_eq_some hf
    rw [List.mem_range'_1] at hmem
    omega

theorem histLoop_sum (bucketDivs : List ℚ) (data : List ℚ) :
    ∀ (i : ℕ) (freq : List ℕ), i < freq.length →
    freq.length = bucketDivs.length - 1 →
    (histLoop bucketDivs data i freq).2.sum = freq.sum + data.length := by
  induction data with
  | nil =>
    intro i freq hi hlen
    simp [histLoop]
  | cons entry rest ih =>
    intro i freq hi hlen
    simp only [histLoop]
    split_ifs with hb
    · rw [ih i _ (by simpa [List.length_set] using hi)
        (by simp [List.length_set, hlen]), sum_set_succ freq i hi,
        List.length_cons]
      omega
    · have hi2lt : findJ bucketDivs entry i < freq.length := by
        rw [hlen]
        exact findJ_lt (by omega)
      rw [ih _ _ (by simpa [List.length_set] using hi2lt)
        (by simp [List.length_set, hlen]), sum_set_succ freq _ hi2lt,
        List.length_cons]
      omega

/-- C9: for a boundary list with at least 2 boundaries, the histogram builder
increments exactly one bucket per timestamp of the sorted input, so the
per-bucket frequencies sum to the number of timestamps (out-of-range
timestamps are counted at the cursor's bucket, never dropped). -/
theorem histogram_sum_c9 (bucketDivs : List ℚ) (sortedData : List ℚ)
    (hb : 2 ≤ bucketDivs.length) (hs : List.Sorted (· ≤ ·) sortedData) :
    (createHistogram bucketDivs sortedData).1.sum = sortedData.length := by
  dsimp only [createHistogram]
  rw [histLoop_sum bucketDivs sortedData 0 _
    (by simp only [List.length_replicate]; omega)
    (by simp only [List.length_replicate])]
  simp

/-- Witness for C9: boundaries [0, 10] with timestamps [1, 2, 3]; the single
bucket receives all three timestamps. -/
theorem histogram_sum_c9_witness :
    (createHistogram [0, 10] [1, 2, 3]).1.sum = 3 :=
  histogram_sum_c9 [0, 10] [1, 2, 3] (by norm_num) (by decide)

/-! Claim C8: the timing-score path. -/

theorem pairwiseDeltas_length : ∀ l : List ℚ,
    (pairwiseDeltas l).length = l.length - 1
  | [] => rfl
  | [_] => rfl
  | a :: b :: rest => by
    simp only [pairwiseDeltas, List.length_cons]
    rw [pairwiseDeltas_length (b :: rest)]
    simp only [List.length_cons]
    omega

theorem pyInt_mono {a b : ℚ} (h : a ≤ b) : pyInt a ≤ pyInt b := by
  unfold pyInt
  split_ifs with ha hb hb
  · exact Int.ceil_mono h
  · have h1 : ⌈a⌉ ≤ 0 := Int.ceil_le.mpr (by exact_mod_cast ha.le)
    have h2 : 0 ≤ ⌊b⌋ := Int.floor_nonneg.mpr (not_lt.mp hb)
    omega
  · exact absurd (lt_of_le_of_lt h hb) ha
  · exact Int.floor_le_floor h

theorem pairwiseDeltas_nonneg : ∀ {l : List ℚ}, List.Sorted (· ≤ ·) l →
    ∀ x ∈ pairwiseDeltas l, 0 ≤ x
  | [], _, x, hx => by simp [pairwiseDeltas] at hx
  | [_], _, x, hx => by simp [pairwiseDeltas] at hx
  | a :: b :: rest, hs, x, hx => by
    simp only [pairwiseDeltas, List.mem_cons] at hx
    rcases hx with rfl | hx
    · have hab : a ≤ b := (List.sorted_cons.mp hs).1 b (List.mem_cons_self _ _)
      exact_mod_cast Int.sub_nonneg.mpr (pyInt_mono hab)
    · exact pairwiseDeltas_nonneg (List.sorted_cons.mp hs).2 x hx

theorem findFirstPos_none {l : List ℚ} :
    findFirstPos l = none ↔ ∀ x ∈ l, ¬ 0 < x := by
  induction l with
  | nil => simp [findFirstPos]
  | cons x xs ih =>
    simp only [findFirstPos]
    by_cases hx : 0 < x
    · simp [hx]
    · simp [hx, Option.map_eq_none', ih]
      exact fun _ => not_lt.mp hx

theorem drop_firstPos : ∀ (l : List ℚ), (∀ x ∈ l, 0 ≤ x) →
    l.drop ((findFirstPos l).getD 0) =
      if ∀ x ∈ l, x = 0 then l else l.dropWhile fun x => decide (x = 0)
  | [], _ => by simp
  | x :: xs, hnn => by
    by_cases hx : 0 < x
    · have hx0 : findFirstPos (x :: xs) = some 0 := by simp [findFirstPos, hx]
      have hcond : ¬ ∀ y ∈ x :: xs, y = 0 := fun hall =>
        absurd (hall x (List.mem_cons_self _ _)) (ne_of_gt hx)
      rw [hx0, if_neg hcond]
      simp only [Option.getD_some, List.drop_zero, List.dropWhile_cons]
      rw [if_neg (by simp [ne_of_gt hx])]
    · have hx0 : x = 0 :=
        le_antisymm (not_lt.mp hx) (hnn x (List.mem_cons_self _ _))
      subst hx0
      have htail : ∀ y ∈ xs, 0 ≤ y := fun y hy =>
        hnn y (List.mem_cons_of_mem _ hy)
      have ihh := drop_firstPos xs htail
      have hstep : findFirstPos ((0 : ℚ) :: xs) = (findFirstPos xs).map (· + 1) := by
        simp [findFirstPos]
      rw [hstep]
      cases hf : findFirstPos xs with
      | none =>
        have hall : ∀ y ∈ (0 : ℚ) :: xs, y = 0 := by
          intro y hy
          rcases List.mem_cons.mp hy with rfl | hy2
          · rfl
          · exact le_antisymm (not_lt.mp (findFirstPos_none.mp hf y hy2))
              (htail y hy2)
        rw [if_pos hall]
        simp
      | some i =>
        have hpos : ¬ ∀ y ∈ xs, ¬ 0 < y := by
          intro hall
          rw [findFirstPos_none.mpr hall] at hf
          cases hf
        push_neg at hpos
        obtain ⟨y, hy, hypos⟩ := hpos
        have hnallxs : ¬ ∀ z ∈ xs, z = 0 := fun hall =>
          absurd (hall y hy) (ne_of_gt hypos)
        have hnall : ¬ ∀ z ∈ (0 : ℚ) :: xs, z = 0 := fun hall =>
          hnallxs fun z hz => hall z (List.mem_cons_of_mem _ hz)
        rw [if_neg hnall]
        rw [hf, if_neg hnallxs] at ihh
        simp only [Option.getD_some] at ihh
        simp only [Option.map_some', Option.getD_some, List.drop_succ_cons]
        rw [ihh, List.dropWhile_cons]
        rw [if_pos (by simp)]

/-- C8: the timing score is computed on the ascending-sorted inter-arrival
deltas of the truncated timestamps, with all leading zero deltas stripped
unless every delta is zero (then the full all-zero sequence is scored);
skewness and MADM (defaultScore 1) are averaged and the mean is rounded up
to three decimals. -/
theorem ts_score_c8 (sortedData : List ℚ)
    (hs : List.Sorted (· ≤ ·) sortedData) (hn : 3 ≤ sortedData.length) :
    getTsScore sortedData =
      (let deltaFull := sortQ (pairwiseDeltas sortedData)
       let deltas := if ∀ x ∈ deltaFull, x = 0 then deltaFull
         else deltaFull.dropWhile fun x => decide (x = 0)
       some (((⌈((calculateBowleySkewness deltas).2 +
               (calculateMedianAbsoluteDeviation deltas 1).2) / 2 * 1000⌉ :
             ℤ) : ℚ) / 1000,
         (calculateBowleySkewness deltas).1,
         (calculateMedianAbsoluteDeviation deltas 1).1)) := by
  have hnn : ∀ x ∈ sortQ (pairwiseDeltas sortedData), 0 ≤ x := fun x hx =>
    pairwiseDeltas_nonneg hs x ((sortQ_perm _).mem_iff.mp hx)
  have hlen : (sortQ (pairwiseDeltas sortedData)).length =
      sortedData.length - 1 := by
    rw [sortQ, List.length_insertionSort]
    exact pairwiseDeltas_length sortedData
  have hdist : calculateDistinctCountsE (sortQ (pairwiseDeltas sortedData)) =
      some (calculateDistinctCounts (sortQ (pairwiseDeltas sortedData))) := by
    unfold calculateDistinctCountsE
    rw [if_neg (by omega)]
  have hdrop := drop_firstPos (sortQ (pairwiseDeltas sortedData)) hnn
  have hne : (if ∀ x ∈ sortQ (pairwiseDeltas sortedData), x = 0
      then sortQ (pairwiseDeltas sortedData)
      else (sortQ (pairwiseDeltas sortedData)).dropWhile
        fun x => decide (x = 0)) ≠ [] := by
    split_ifs with hc
    · intro hcon
      rw [hcon] at hlen
      simp at hlen
      omega
    · rw [Ne, List.dropWhile_eq_nil_iff]
      push_neg at hc
      obtain ⟨y, hy, hy0⟩ := hc
      intro hall
      have := hall y hy
      simp at this
      exact hy0 this
  have hlne : (if ∀ x ∈ sortQ (pairwiseDeltas sortedData), x = 0
      then sortQ (pairwiseDeltas sortedData)
      else (sortQ (pairwiseDeltas sortedData)).dropWhile
        fun x => decide (x = 0)).length ≠ 0 :=
    fun hc => hne (List.length_eq_zero.mp hc)
  dsimp only [getTsScore]
  rw [hdist]
  simp only [Option.some_bind]
  rw [hdrop]
  unfold calculateBowleySkewnessE calculateMedianAbsoluteDeviationE
  rw [if_neg hlne, if_neg hlne]
  simp only [Option.some_bind]

/-- Witness for C8 at the sorted timestamps [0, 10, 20]: both deltas are 10,
nothing is stripped, skewness score 1 and MADM score 1, timing score 1. -/
theorem ts_score_c8_witness :
    getTsScore [0, 10, 20] = some (1, 0, 0) :=
  (ts_score_c8 [0, 10, 20] (by decide) (by decide)).trans (by
    norm_num [pairwiseDeltas, pyInt, sortQ, List.insertionSort,
      List.orderedInsert, List.dropWhile, calculateBowleySkewness,
      bowleyQuartiles, npMedian, med, calculateMedianAbsoluteDeviation])

end Rita
